import Mathlib

/-!
Verification of the spaced-repetition scheduler (Express + SQLite server in
src/server/index.js, notes codec in src/client/src/App.jsx).

Shallow embedding conventions:
* Calendar dates are modelled as integers (a day index).  The server stores
  dates as YYYY-MM-DD strings and only ever adds whole days (dayjs .add
  (n, day)) and compares for equality / groups by the string; day indices
  with integer addition are an equivalent calendar-date type with identical
  ordering, as the data layout requires.
* The SQLite tables questions and schedule become lists of records plus the
  AUTOINCREMENT counters.
* better-sqlite3 statements become pure state transformers; an endpoint
  returns the new store together with the reported outcome.
-/

/-- Row of the questions table: id INTEGER PRIMARY KEY AUTOINCREMENT,
title TEXT NOT NULL, created_at TEXT NOT NULL, notes TEXT DEFAULT ''. -/
structure Question where
  id : Nat
  title : String
  created_at : Int
  notes : String
deriving DecidableEq, Repr

/-- Row of the schedule table: id INTEGER PRIMARY KEY AUTOINCREMENT,
question_id INTEGER NOT NULL, due_date TEXT NOT NULL,
completed INTEGER DEFAULT 0. -/
structure Review where
  id : Nat
  question_id : Nat
  due_date : Int
  completed : Bool
deriving DecidableEq, Repr

/-- The database state: both tables plus the next AUTOINCREMENT values. -/
structure Store where
  questions : List Question
  schedule : List Review
  nextQid : Nat
  nextSid : Nat
deriving DecidableEq, Repr

/-- const INTERVALS = [1, 3, 6, 12, 24, 48]. -/
def INTERVALS : List Int := [1, 3, 6, 12, 24, 48]

/-- The date sequence computed by the loop in generateSchedule: a running
cursor starts at startDate and each interval advances the cursor, whose
value is emitted (currentDate = currentDate.add(daysToAdd, day)). -/
def dueDatesAux : Int → List Int → List Int
  | _, [] => []
  | cur, d :: rest => (cur + d) :: dueDatesAux (cur + d) rest

/-- Due dates generated for a given start date. -/
def dueDates (startDate : Int) : List Int :=
  dueDatesAux startDate INTERVALS

/-- INSERT INTO schedule (question_id, due_date) VALUES (?, ?);
completed takes its DEFAULT 0 and id the next AUTOINCREMENT value. -/
def insertReview (s : Store) (qid : Nat) (d : Int) : Store :=
  { s with schedule := s.schedule ++ [⟨s.nextSid, qid, d, false⟩],
           nextSid := s.nextSid + 1 }

/-- generateSchedule(questionId, startDate): runs one schedule INSERT per
emitted due date (the successful, committed execution of the transaction). -/
def generateSchedule (s : Store) (qid : Nat) (startDate : Int) : Store :=
  (dueDates startDate).foldl (fun st dd => insertReview st qid dd) s

/-- generateSchedule with fault injection.  The six INSERTs run inside
db.transaction, so a throw at any loop iteration (failAt = some k with k
below the loop length) triggers ROLLBACK: the schedule table reverts to its
pre-transaction state and the error propagates (Bool false).  Otherwise the
transaction commits (Bool true). -/
def generateScheduleTx (s : Store) (qid : Nat) (startDate : Int)
    (failAt : Option Nat) : Store × Bool :=
  match failAt with
  | some k =>
    if k < (dueDates startDate).length then (s, false)
    else (generateSchedule s qid startDate, true)
  | none => (generateSchedule s qid startDate, true)

/-- INSERT INTO questions (title, created_at) VALUES (?, ?); notes takes its
DEFAULT ''.  This INSERT runs in autocommit mode, outside the transaction
used by generateSchedule. -/
def insertQuestion (s : Store) (title : String) (today : Int) : Store :=
  { s with questions := s.questions ++ [⟨s.nextQid, title, today, ""⟩],
           nextQid := s.nextQid + 1 }

/-- POST /api/questions: inserts the question row, then calls
generateSchedule(info.lastInsertRowid, today).  failAt injects a failure
into the review-insert loop; the handler's catch then reports a 500 error
(Bool false), but the already-committed question INSERT is not undone. -/
def createItem (s : Store) (title : String) (today : Int)
    (failAt : Option Nat) : Store × Bool :=
  let s1 := insertQuestion s title today
  generateScheduleTx s1 s.nextQid today failAt

/-- POST /api/schedule/:id/toggle: UPDATE schedule SET completed = NOT
completed WHERE id = ?; the handler always answers success, whether or not
any row matched. -/
def toggleReview (s : Store) (id : Nat) : Store × Bool :=
  let flipped := s.schedule.map
    (fun r => if r.id = id then { r with completed := !r.completed } else r)
  ({ s with schedule := flipped }, true)

/-- PUT /api/questions/:id/notes: UPDATE questions SET notes = ? WHERE
id = ? with value notes-or-empty; if result.changes = 0 the handler answers
404 (Bool false), else success.  The optional argument models a missing
body field (undefined coalesces to the empty string). -/
def setNotes (s : Store) (id : Nat) (notes : Option String) : Store × Bool :=
  let written := s.questions.map
    (fun q => if q.id = id then { q with notes := notes.getD "" } else q)
  let updated := { s with questions := written }
  let changes := s.questions.countP (fun q => q.id == id)
  if changes = 0 then (updated, false) else (updated, true)

/-- GET /api/calendar-stats: SELECT due_date, COUNT(*) FROM schedule WHERE
completed = 0 GROUP BY due_date.  One output pair per distinct due_date
among the incomplete rows, carrying the number of such rows. -/
def countsByDate (s : Store) : List (Int × Nat) :=
  let incomplete := s.schedule.filter (fun r => r.completed == false)
  ((incomplete.map (fun r => r.due_date)).dedup).map
    (fun d => (d, (incomplete.filter (fun r => r.due_date == d)).length))

/-- Number of incomplete schedule rows due on a given date. -/
def incompleteOn (s : Store) (d : Int) : Nat :=
  ((s.schedule.filter (fun r => r.completed == false)).filter
    (fun r => r.due_date == d)).length

/-- One row of the GET /api/schedule result: SELECT s.id, s.due_date,
s.completed, q.title, q.id as question_id, q.notes. -/
structure TaskRow where
  id : Nat
  due_date : Int
  completed : Bool
  title : String
  question_id : Nat
  notes : String
deriving DecidableEq, Repr

/-- GET /api/schedule: targetDate = date query parameter, defaulting to
today when absent (date-or-today); the SELECT joins each matching schedule
row with its question row. -/
def listReviews (s : Store) (today : Int) (dateParam : Option Int) :
    List TaskRow :=
  let targetDate := dateParam.getD today
  (s.schedule.filter (fun r => r.due_date == targetDate)).filterMap
    (fun r => (s.questions.find? (fun q => q.id == r.question_id)).map
      (fun q => ⟨r.id, r.due_date, r.completed, q.title, q.id, q.notes⟩))

/-- The store of a freshly created database: empty tables, counters at 1. -/
def store0 : Store := ⟨[], [], 1, 1⟩

/-- Store with one question for the setNotes witness. -/
def store9 : Store := ⟨[⟨1, "Q1", 0, ""⟩], [], 2, 1⟩

/-- Store with one incomplete and one complete review on day 3, for the
calendar witness. -/
def store7 : Store := ⟨[], [⟨1, 1, 3, false⟩, ⟨2, 1, 3, true⟩], 1, 3⟩

/-- Store with one question and one review due on day 5, for the schedule
listing witness. -/
def store10 : Store := ⟨[⟨1, "Q1", 0, "notes"⟩], [⟨1, 1, 5, false⟩], 2, 2⟩

-- ### Notes codec (src/client/src/App.jsx)

/-- A JavaScript value produced by JSON.parse.  Numbers keep the parsed
decimal mantissa and scale (value = mantissa * 10 ^ scale); only their
zero-ness (JS truthiness) is ever consumed by the client code.  Lean
strings hold Unicode scalar values, so a JS string containing a lone
UTF-16 surrogate is represented with U+FFFD. -/
inductive JVal where
  | null : JVal
  | bool (b : Bool) : JVal
  | num (mantissa : Int) (scale : Int) : JVal
  | str (s : String) : JVal
  | arr (items : List JVal) : JVal
  | obj (fields : List (String × JVal)) : JVal

/-- JSON whitespace. -/
def isJsonWs (c : Char) : Bool :=
  c = ' ' || c = '\t' || c = '\n' || c = '\r'

/-- Drop leading JSON whitespace. -/
def skipWs : List Char → List Char
  | [] => []
  | c :: rest => if isJsonWs c then skipWs rest else c :: rest

/-- Value of one hexadecimal digit. -/
def hexDigitVal (c : Char) : Option Nat :=
  if '0' ≤ c ∧ c ≤ '9' then some (c.toNat - '0'.toNat)
  else if 'a' ≤ c ∧ c ≤ 'f' then some (c.toNat - 'a'.toNat + 10)
  else if 'A' ≤ c ∧ c ≤ 'F' then some (c.toNat - 'A'.toNat + 10)
  else none

/-- Lowercase hexadecimal digit for a value below 16. -/
def hexDigitChar (n : Nat) : Char :=
  if n < 10 then Char.ofNat ('0'.toNat + n) else Char.ofNat ('a'.toNat + n - 10)

/-- Value of a four-hex-digit escape. -/
def hex4 (h1 h2 h3 h4 : Char) : Option Nat :=
  match hexDigitVal h1, hexDigitVal h2, hexDigitVal h3, hexDigitVal h4 with
  | some a, some b, some c, some d => some (((a * 16 + b) * 16 + c) * 16 + d)
  | _, _, _, _ => none

/-- Single-character JSON string escapes. -/
def unescapeChar (c : Char) : Option Char :=
  if c = '"' then some '"'
  else if c = '\\' then some '\\'
  else if c = '/' then some '/'
  else if c = 'b' then some '\x08'
  else if c = 'f' then some '\x0C'
  else if c = 'n' then some '\n'
  else if c = 'r' then some '\r'
  else if c = 't' then some '\t'
  else none

mutual

/-- Body of a JSON string after the opening quote: returns the decoded
characters and the input after the closing quote.  Surrogate pairs in
unicode escapes combine into one scalar; a lone surrogate becomes U+FFFD
(see JVal); raw control characters are rejected, as JSON.parse does. -/
def parseStrBody : List Char → Option (List Char × List Char)
  | [] => none
  | c :: rest =>
    if c = '"' then some ([], rest)
    else if c = '\\' then
      match rest with
      | 'u' :: h1 :: h2 :: h3 :: h4 :: rest2 =>
        match hex4 h1 h2 h3 h4 with
        | none => none
        | some n =>
          if 0xD800 ≤ n ∧ n < 0xDC00 then parseStrSur n rest2
          else if 0xDC00 ≤ n ∧ n < 0xE000 then
            match parseStrBody rest2 with
            | some (cs, r) => some ('�' :: cs, r)
            | none => none
          else
            match parseStrBody rest2 with
            | some (cs, r) => some (Char.ofNat n :: cs, r)
            | none => none
      | e :: rest2 =>
        match unescapeChar e with
        | some c2 =>
          match parseStrBody rest2 with
          | some (cs, r) => some (c2 :: cs, r)
          | none => none
        | none => none
      | [] => none
    else if c.toNat < 0x20 then none
    else
      match parseStrBody rest with
      | some (cs, r) => some (c :: cs, r)
      | none => none
termination_by cs => (cs.length, 0)

/-- Continuation after a high surrogate escape with value n: a following
low surrogate escape combines into one scalar, anything else leaves the
lone high surrogate as U+FFFD and resumes the normal string body. -/
def parseStrSur (n : Nat) : List Char → Option (List Char × List Char)
  | '\\' :: 'u' :: g1 :: g2 :: g3 :: g4 :: rest3 =>
    match hex4 g1 g2 g3 g4 with
    | some m =>
      if 0xDC00 ≤ m ∧ m < 0xE000 then
        match parseStrBody rest3 with
        | some (cs, r) =>
          some (Char.ofNat
            (0x10000 + (n - 0xD800) * 0x400 + (m - 0xDC00)) :: cs, r)
        | none => none
      else
        match parseStrBody ('\\' :: 'u' :: g1 :: g2 :: g3 :: g4 :: rest3) with
        | some (cs, r) => some ('�' :: cs, r)
        | none => none
    | none =>
      match parseStrBody ('\\' :: 'u' :: g1 :: g2 :: g3 :: g4 :: rest3) with
      | some (cs, r) => some ('�' :: cs, r)
      | none => none
  | cs =>
    match parseStrBody cs with
    | some (cs2, r) => some ('�' :: cs2, r)
    | none => none
termination_by cs => (cs.length, 1)

end

/-- Numeric value of a run of decimal digits. -/
def digitsToNat (ds : List Char) : Nat :=
  ds.foldl (fun a c => a * 10 + (c.toNat - '0'.toNat)) 0

/-- Fraction and exponent tail of a JSON number, given the sign and the
integer-part digits already read. -/
def parseNumTail (neg : Bool) (intDs : List Char) (cs : List Char) :
    Option (JVal × List Char) :=
  let step2 := fun (fracDs : List Char) (cs2 : List Char) =>
    let finish := fun (e : Int) (cs3 : List Char) =>
      let m : Int := Int.ofNat (digitsToNat (intDs ++ fracDs))
      some (JVal.num (if neg then -m else m) (e - Int.ofNat fracDs.length), cs3)
    match cs2 with
    | 'e' :: r1 | 'E' :: r1 =>
      let (esign, r2) := match r1 with
        | '+' :: t => ((1 : Int), t)
        | '-' :: t => ((-1 : Int), t)
        | _ => ((1 : Int), r1)
      let (es, r3) := r2.span Char.isDigit
      if es = [] then none else finish (esign * Int.ofNat (digitsToNat es)) r3
    | _ => finish 0 cs2
  match cs with
  | '.' :: r =>
    let (fs, r2) := r.span Char.isDigit
    if fs = [] then none else step2 fs r2
  | _ => step2 [] cs

/-- A JSON number: optional minus, then either a single 0 or a nonzero
leading digit run, then optional fraction and exponent. -/
def parseNumber (cs : List Char) : Option (JVal × List Char) :=
  let (neg, cs1) := match cs with
    | '-' :: r => (true, r)
    | _ => (false, cs)
  match cs1 with
  | '0' :: r => parseNumTail neg ['0'] r
  | c :: r =>
    if '1' ≤ c ∧ c ≤ '9' then
      let (ds, r2) := r.span Char.isDigit
      parseNumTail neg (c :: ds) r2
    else none
  | [] => none

mutual

/-- One JSON value, fuel-bounded (the fuel only limits nesting and member
counts; jsonParse supplies enough for any input). -/
def parseValue : Nat → List Char → Option (JVal × List Char)
  | 0, _ => none
  | Nat.succ fuel, cs =>
    match skipWs cs with
    | [] => none
    | c :: rest =>
      if c = '"' then
        match parseStrBody rest with
        | some (sc, r) => some (JVal.str (String.mk sc), r)
        | none => none
      else if c = '\x7b' then
        match skipWs rest with
        | '\x7d' :: r => some (JVal.obj [], r)
        | cs2 => parseObjMembers fuel cs2 []
      else if c = '[' then
        match skipWs rest with
        | ']' :: r => some (JVal.arr [], r)
        | cs2 => parseArrMembers fuel cs2 []
      else if c = 't' then
        match rest with
        | 'r' :: 'u' :: 'e' :: r => some (JVal.bool true, r)
        | _ => none
      else if c = 'f' then
        match rest with
        | 'a' :: 'l' :: 's' :: 'e' :: r => some (JVal.bool false, r)
        | _ => none
      else if c = 'n' then
        match rest with
        | 'u' :: 'l' :: 'l' :: r => some (JVal.null, r)
        | _ => none
      else parseNumber (c :: rest)

/-- Members of a JSON object after the opening brace (input already at the
first key's quote), accumulating parsed fields. -/
def parseObjMembers : Nat → List Char → List (String × JVal) →
    Option (JVal × List Char)
  | 0, _, _ => none
  | Nat.succ fuel, cs, acc =>
    match cs with
    | '"' :: rest =>
      match parseStrBody rest with
      | some (kcs, r1) =>
        match skipWs r1 with
        | ':' :: r2 =>
          match parseValue fuel r2 with
          | some (v, r3) =>
            match skipWs r3 with
            | ',' :: r4 => parseObjMembers fuel (skipWs r4) (acc ++ [(String.mk kcs, v)])
            | '\x7d' :: r4 => some (JVal.obj (acc ++ [(String.mk kcs, v)]), r4)
            | _ => none
          | none => none
        | _ => none
      | none => none
    | _ => none

/-- Elements of a JSON array after the opening bracket (input already at
the first element), accumulating parsed items. -/
def parseArrMembers : Nat → List Char → List JVal →
    Option (JVal × List Char)
  | 0, _, _ => none
  | Nat.succ fuel, cs, acc =>
    match parseValue fuel cs with
    | some (v, r1) =>
      match skipWs r1 with
      | ',' :: r2 => parseArrMembers fuel r2 (acc ++ [v])
      | ']' :: r2 => some (JVal.arr (acc ++ [v]), r2)
      | _ => none
    | none => none

end

/-- JSON.parse: one value surrounded by whitespace, nothing else. -/
def jsonParse (s : String) : Option JVal :=
  match parseValue (s.data.length + 1) s.data with
  | some (v, rest) => if skipWs rest = [] then some v else none
  | none => none

/-- Property lookup on a parsed JSON object: with duplicate keys the last
one wins, as in JSON.parse. -/
def lookupField : List (String × JVal) → String → Option JVal
  | [], _ => none
  | (k2, v) :: rest, k =>
    match lookupField rest k with
    | some r => some r
    | none => if k2 = k then some v else none

/-- parsed.field in JS: objects yield the named property when present;
every other value yields undefined (none).  The null case is handled by
the caller, where the property access throws. -/
def getField : JVal → String → Option JVal
  | JVal.obj fs, k => lookupField fs k
  | _, _ => none

/-- JS truthiness of a defined value. -/
def jsTruthy : JVal → Bool
  | JVal.null => false
  | JVal.bool b => b
  | JVal.num m _ => if m = 0 then false else true
  | JVal.str s => if s = "" then false else true
  | JVal.arr _ => true
  | JVal.obj _ => true

/-- The JS expression x-or-empty-string: the empty string when x is
undefined or falsy, otherwise x itself. -/
def jsOrEmptyStr (o : Option JVal) : JVal :=
  match o with
  | some v => if jsTruthy v then v else JVal.str ""
  | none => JVal.str ""

/-- The two-field notes structure produced by parseNotes. -/
structure NotesPayload where
  bruteForce : JVal
  optimized : JVal

/-- parseNotes from App.jsx: an empty string yields empty fields; otherwise
JSON.parse is attempted, and on success the two properties are read with
the or-empty-string default.  A parse failure lands in the catch block and
yields the whole raw text as bruteForce; JSON.parse succeeding with null
also lands there, because the property access on null throws inside the
try. -/
def parseNotes (raw : String) : NotesPayload :=
  if raw = "" then ⟨JVal.str "", JVal.str ""⟩
  else
    match jsonParse raw with
    | some JVal.null => ⟨JVal.str raw, JVal.str ""⟩
    | some v => ⟨jsOrEmptyStr (getField v "bruteForce"),
                 jsOrEmptyStr (getField v "optimized")⟩
    | none => ⟨JVal.str raw, JVal.str ""⟩

/-- JSON.stringify escaping of one string character (lowercase hex for
control characters, as ECMA-262 QuoteJSONString specifies). -/
def escapeChar (c : Char) : List Char :=
  if c = '"' then ['\\', '"']
  else if c = '\\' then ['\\', '\\']
  else if c = '\x08' then ['\\', 'b']
  else if c = '\t' then ['\\', 't']
  else if c = '\n' then ['\\', 'n']
  else if c = '\x0C' then ['\\', 'f']
  else if c = '\r' then ['\\', 'r']
  else if c.toNat < 0x20 then
    ['\\', 'u', '0', '0', hexDigitChar (c.toNat / 16), hexDigitChar (c.toNat % 16)]
  else [c]

/-- JSON.stringify escaping of a character list. -/
def escapeList : List Char → List Char
  | [] => []
  | c :: rest => escapeChar c ++ escapeList rest

/-- A JSON string literal for s: quote, escaped body, quote. -/
def quoteStr (s : String) : List Char :=
  '"' :: (escapeList s.data ++ ['"'])

/-- The serialization JSON.stringify performs in saveNotes on the object
literal with fields bruteForce and optimized, in that insertion order and
with no added whitespace. -/
def encodeNotes (a b : String) : String :=
  String.mk ('\x7b' :: (quoteStr "bruteForce" ++ (':' ::
    (quoteStr a ++ (',' :: (quoteStr "optimized" ++ (':' ::
      (quoteStr b ++ ['\x7d']))))))))


-- ### Helper lemmas about the store operations

/-- The cursor loop emits the cumulative sums of INTERVALS. -/
theorem dueDates_eq (d : Int) :
    dueDates d = [d + 1, d + 4, d + 10, d + 22, d + 46, d + 94] := by
  show [d + 1, d + 1 + 3, d + 1 + 3 + 6, d + 1 + 3 + 6 + 12,
        d + 1 + 3 + 6 + 12 + 24, d + 1 + 3 + 6 + 12 + 24 + 48] = _
  simp only [List.cons.injEq, and_true, true_and]
  omega

/-- Effect of a committed generateSchedule run on the schedule table. -/
theorem generateSchedule_schedule (s : Store) (qid : Nat) (d : Int) :
    (generateSchedule s qid d).schedule = s.schedule ++
      [⟨s.nextSid, qid, d + 1, false⟩, ⟨s.nextSid + 1, qid, d + 4, false⟩,
       ⟨s.nextSid + 2, qid, d + 10, false⟩, ⟨s.nextSid + 3, qid, d + 22, false⟩,
       ⟨s.nextSid + 4, qid, d + 46, false⟩, ⟨s.nextSid + 5, qid, d + 94, false⟩] := by
  simp [generateSchedule, dueDates_eq, insertReview]

/-- generateSchedule does not touch the questions table. -/
theorem generateSchedule_questions (s : Store) (qid : Nat) (d : Int) :
    (generateSchedule s qid d).questions = s.questions := by
  simp [generateSchedule, dueDates_eq, insertReview]

/-- Claim C1: for every creation date d the schedule generator produces
exactly 6 due dates, in order, equal to d plus the cumulative sums of the
interval table [1,3,6,12,24,48] (d+1, d+4, d+10, d+22, d+46, d+94), each
interval advancing a running cursor; the committed run inserts exactly one
schedule row per such date. -/
theorem c1_schedule_cumulative (d : Int) (s : Store) (qid : Nat) :
    dueDates d = [d + 1, d + 4, d + 10, d + 22, d + 46, d + 94] ∧
    (dueDates d).length = 6 ∧
    (generateSchedule s qid d).schedule = s.schedule ++
      [⟨s.nextSid, qid, d + 1, false⟩, ⟨s.nextSid + 1, qid, d + 4, false⟩,
       ⟨s.nextSid + 2, qid, d + 10, false⟩, ⟨s.nextSid + 3, qid, d + 22, false⟩,
       ⟨s.nextSid + 4, qid, d + 46, false⟩, ⟨s.nextSid + 5, qid, d + 94, false⟩] :=
  ⟨dueDates_eq d, by simp [dueDates_eq], generateSchedule_schedule s qid d⟩

/-- Mapping a function that fixes every member of a list is the identity. -/
theorem list_map_id_of_mem {α : Type} (f : α → α) (l : List α)
    (h : ∀ x ∈ l, f x = x) : l.map f = l := by
  induction l with
  | nil => rfl
  | cons a l ih =>
    simp only [List.map_cons, h a (by simp), List.cons.injEq, true_and]
    exact ih (fun x hx => h x (by simp [hx]))

-- ### Claim C2 (item creation atomicity)

/-- Claim C2, counterexample: on a fresh database, a write failure injected
after the question INSERT and before the first review INSERT leaves one new
question row and zero review rows, so the resulting store does not contain
zero new Item rows as the claim requires. -/
theorem c2_counterexample :
    (createItem store0 "Two Sum" 0 (some 0)).1.questions.length = 1 ∧
    (createItem store0 "Two Sum" 0 (some 0)).1.schedule.length = 0 ∧
    (createItem store0 "Two Sum" 0 (some 0)).2 = false := by
  refine ⟨rfl, rfl, rfl⟩

/-- Claim C2 as amended: only the six review INSERTs run inside the
transaction, so a failure there rolls back every ScheduledReview row (a
partial review set is never observable) and the operation reports failure,
but the Item row inserted before the transaction remains committed. -/
theorem c2_amended (s : Store) (title : String) (d : Int) (k : Nat)
    (hk : k < 6) :
    (createItem s title d (some k)).1.schedule = s.schedule ∧
    (createItem s title d (some k)).1.questions =
      s.questions ++ [⟨s.nextQid, title, d, ""⟩] ∧
    (createItem s title d (some k)).2 = false := by
  have hlen : (dueDates d).length = 6 := by simp [dueDates_eq]
  simp [createItem, insertQuestion, generateScheduleTx, hlen, hk]

/-- Witness for c2_amended at a concrete input. -/
theorem c2_amended_witness :
    (createItem store0 "Two Sum" 0 (some 2)).1.schedule = store0.schedule ∧
    (createItem store0 "Two Sum" 0 (some 2)).1.questions =
      store0.questions ++ [⟨store0.nextQid, "Two Sum", 0, ""⟩] ∧
    (createItem store0 "Two Sum" 0 (some 2)).2 = false :=
  c2_amended store0 "Two Sum" 0 2 (by decide)

-- ### Claim C3 (empty-title validation)

/-- Claim C3, counterexample: creating an item with the empty title on a
fresh database succeeds and inserts one question row and six review rows;
no ValidationError occurs and the store does not stay unchanged. -/
theorem c3_counterexample :
    (createItem store0 "" 0 none).2 = true ∧
    (createItem store0 "" 0 none).1.questions.length = 1 ∧
    (createItem store0 "" 0 none).1.schedule.length = 6 := by
  refine ⟨rfl, rfl, rfl⟩

/-- Claim C3 as amended: the server performs no title validation, so for an
empty or whitespace-only title createItem succeeds, inserting one Item row
carrying that title and six ScheduledReview rows. -/
theorem c3_amended (s : Store) (d : Int) (title : String)
    (h : ∀ c ∈ title.data, c.isWhitespace) :
    (createItem s title d none).2 = true ∧
    (createItem s title d none).1.questions =
      s.questions ++ [⟨s.nextQid, title, d, ""⟩] ∧
    (createItem s title d none).1.schedule.length = s.schedule.length + 6 := by
  refine ⟨rfl, ?_, ?_⟩
  · simp [createItem, generateScheduleTx, insertQuestion,
      generateSchedule_questions]
  · simp [createItem, generateScheduleTx, insertQuestion,
      generateSchedule_schedule]

/-- Witness for c3_amended at a concrete input. -/
theorem c3_amended_witness :
    (createItem store0 "  " 5 none).2 = true ∧
    (createItem store0 "  " 5 none).1.questions =
      store0.questions ++ [⟨store0.nextQid, "  ", 5, ""⟩] ∧
    (createItem store0 "  " 5 none).1.schedule.length =
      store0.schedule.length + 6 :=
  c3_amended store0 5 "  " (by decide)

-- ### Claim C4 (toggle of a nonexistent review)

/-- Claim C4, counterexample: toggling review id 1 on a fresh empty database
reports success, not a NotFoundError distinct from success. -/
theorem c4_counterexample :
    (toggleReview store0 1).2 = true ∧ (toggleReview store0 1).1 = store0 := by
  refine ⟨rfl, rfl⟩

/-- Claim C4 as amended: toggleReview always reports success; when no review
has the requested id it is a silent no-op leaving the store unchanged, and
when a review has the id that review's completed flag is flipped (the
questions table is never touched). -/
theorem c4_amended (s : Store) (id : Nat) :
    (toggleReview s id).2 = true ∧
    ((∀ r ∈ s.schedule, r.id ≠ id) → (toggleReview s id).1 = s) ∧
    (∀ r ∈ s.schedule, r.id = id →
      { r with completed := !r.completed } ∈ (toggleReview s id).1.schedule) ∧
    (toggleReview s id).1.questions = s.questions := by
  refine ⟨rfl, ?_, ?_, rfl⟩
  · intro h
    have hmap : s.schedule.map
        (fun r => if r.id = id then { r with completed := !r.completed } else r)
        = s.schedule :=
      list_map_id_of_mem _ _ (fun r hr => by simp [h r hr])
    cases s
    simp only [toggleReview] at hmap ⊢
    simp [hmap]
  · intro r hr hid
    have : { r with completed := !r.completed } =
        (fun x => if x.id = id then { x with completed := !x.completed } else x) r := by
      simp [hid]
    rw [this]
    exact List.mem_map_of_mem _ hr

/-- Witness for c4_amended at a concrete input: a store with one incomplete
review, whose toggle flips the flag, and an absent id, whose toggle is a
reported-success no-op. -/
theorem c4_amended_witness :
    (⟨1, 1, 3, true⟩ : Review) ∈ (toggleReview ⟨[], [⟨1, 1, 3, false⟩], 1, 2⟩ 1).1.schedule ∧
    (toggleReview ⟨[], [⟨1, 1, 3, false⟩], 1, 2⟩ 7).1 = ⟨[], [⟨1, 1, 3, false⟩], 1, 2⟩ :=
  ⟨(c4_amended ⟨[], [⟨1, 1, 3, false⟩], 1, 2⟩ 1).2.2.1 ⟨1, 1, 3, false⟩ (by decide) rfl,
   (c4_amended ⟨[], [⟨1, 1, 3, false⟩], 1, 2⟩ 7).2.1 (by decide)⟩

-- ### Claim C8 (toggle is an involution)

/-- Claim C8: applying toggleReview twice with the same id restores the
store, hence in particular every review's completed flag, to its original
value (proved for every store and id, covering every id present). -/
theorem c8_toggle_involutive (s : Store) (id : Nat) :
    (toggleReview (toggleReview s id).1 id).1 = s := by
  cases s with
  | mk qs sch nq ns =>
    simp only [toggleReview, List.map_map]
    have hmap :
        sch.map ((fun r : Review =>
            if r.id = id then { r with completed := !r.completed } else r) ∘
          (fun r : Review =>
            if r.id = id then { r with completed := !r.completed } else r)) = sch := by
      apply list_map_id_of_mem
      intro r _
      by_cases h : r.id = id
      · cases r
        simp_all [Function.comp]
      · simp [Function.comp, h]
    rw [hmap]

-- ### Claim C9 (notes update reports affected rows)

/-- Claim C9: when no question has the requested id, the notes UPDATE
affects zero rows and the handler reports 404 (a NotFoundError distinct
from success) with the store unchanged; when a question has the id, the
handler succeeds and that question's notes are overwritten with the given
text (an absent body field coalescing to the empty string), every other
question and the schedule table being untouched. -/
theorem c9_setNotes_not_found (s : Store) (id : Nat) (raw : Option String) :
    ((∀ q ∈ s.questions, q.id ≠ id) → setNotes s id raw = (s, false)) ∧
    ((∃ q ∈ s.questions, q.id = id) →
      (setNotes s id raw).2 = true ∧
      (∀ q ∈ s.questions, q.id = id →
        { q with notes := raw.getD "" } ∈ (setNotes s id raw).1.questions) ∧
      (∀ q ∈ s.questions, q.id ≠ id → q ∈ (setNotes s id raw).1.questions) ∧
      (setNotes s id raw).1.schedule = s.schedule) := by
  constructor
  · intro h
    have hc : s.questions.countP (fun q => q.id == id) = 0 := by
      rw [List.countP_eq_zero]
      intro q hq
      simpa using h q hq
    have hmap : s.questions.map
        (fun q => if q.id = id then { q with notes := raw.getD "" } else q)
        = s.questions :=
      list_map_id_of_mem _ _ (fun q hq => by simp [h q hq])
    cases s
    simp_all [setNotes]
  · rintro ⟨q0, hq0, hid0⟩
    have hc : ¬ s.questions.countP (fun q => q.id == id) = 0 := by
      have : 0 < s.questions.countP (fun q => q.id == id) :=
        List.countP_pos_iff.mpr ⟨q0, hq0, by simp [hid0]⟩
      omega
    refine ⟨by simp [setNotes, hc], ?_, ?_, by simp [setNotes, hc]⟩
    · intro q hq hid
      have : { q with notes := raw.getD "" } =
          (fun x : Question =>
            if x.id = id then { x with notes := raw.getD "" } else x) q := by
        simp [hid]
      rw [this]
      simp only [setNotes, hc, if_false]
      exact List.mem_map_of_mem _ hq
    · intro q hq hid
      have hfq : (fun x : Question =>
          if x.id = id then { x with notes := raw.getD "" } else x) q = q := by
        simp [hid]
      have hmem := List.mem_map_of_mem (fun x : Question =>
          if x.id = id then { x with notes := raw.getD "" } else x) hq
      rw [hfq] at hmem
      simpa [setNotes, hc] using hmem
/-- Witness for c9_setNotes_not_found: a missing id answers 404 leaving the
store unchanged, and a present id overwrites the question's notes. -/
theorem c9_setNotes_witness :
    setNotes store9 5 none = (store9, false) ∧
    (setNotes store9 1 (some "hi")).2 = true ∧
    (⟨1, "Q1", 0, "hi"⟩ : Question) ∈ (setNotes store9 1 (some "hi")).1.questions := by
  have h2 := (c9_setNotes_not_found store9 1 (some "hi")).2
    ⟨⟨1, "Q1", 0, ""⟩, by decide, rfl⟩
  exact ⟨(c9_setNotes_not_found store9 5 none).1 (by decide),
    h2.1, h2.2.1 ⟨1, "Q1", 0, ""⟩ (by decide) rfl⟩

-- ### Claim C7 (calendar aggregation)

/-- Membership in the calendar aggregation: a pair (d, n) occurs exactly
when n is the positive number of incomplete reviews due on d. -/
theorem countsByDate_mem (s : Store) (d : Int) (n : Nat) :
    (d, n) ∈ countsByDate s ↔ incompleteOn s d = n ∧ 0 < n := by
  unfold countsByDate incompleteOn
  constructor
  · intro h
    rcases List.mem_map.mp h with ⟨d2, hd2, heq⟩
    rcases Prod.mk.injEq .. ▸ heq with ⟨rfl, rfl⟩
    refine ⟨rfl, ?_⟩
    have hdm : d2 ∈ (s.schedule.filter (fun r => r.completed == false)).map
        (fun r => r.due_date) := List.mem_dedup.mp hd2
    rcases List.mem_map.mp hdm with ⟨r, hr, hrd⟩
    have hmem : r ∈ (s.schedule.filter (fun r => r.completed == false)).filter
        (fun r => r.due_date == d2) :=
      List.mem_filter.mpr ⟨hr, by simp [hrd]⟩
    exact List.length_pos.mpr (List.ne_nil_of_mem hmem)
  · rintro ⟨hlen, hpos⟩
    have hne : (s.schedule.filter (fun r => r.completed == false)).filter
        (fun r => r.due_date == d) ≠ [] := by
      intro hnil
      rw [hnil] at hlen
      simp at hlen
      omega
    obtain ⟨r, hrmem⟩ := List.exists_mem_of_ne_nil _ hne
    have hr := List.mem_filter.mp hrmem
    have hd : d ∈ ((s.schedule.filter (fun r => r.completed == false)).map
        (fun r => r.due_date)).dedup :=
      List.mem_dedup.mpr (List.mem_map.mpr ⟨r, hr.1, by simpa using hr.2⟩)
    exact List.mem_map.mpr ⟨d, hd, by rw [hlen]⟩

/-- Claim C7: the calendar mapping contains exactly the dates with at least
one incomplete review, each with its incomplete count (so never a count of
0), and toggling the last incomplete review of a date removes that date
from the mapping. -/
theorem c7_calendar_stats (s : Store)
    (hids : s.schedule.Pairwise (fun a b => a.id ≠ b.id)) :
    (∀ d n, (d, n) ∈ countsByDate s ↔ incompleteOn s d = n ∧ 0 < n) ∧
    (∀ r ∈ s.schedule, r.completed = false →
      (∀ r2 ∈ s.schedule, r2.due_date = r.due_date → r2.completed = false →
        r2 = r) →
      ∀ n, (r.due_date, n) ∉ countsByDate (toggleReview s r.id).1) := by
  refine ⟨fun d n => countsByDate_mem s d n, ?_⟩
  intro r hr hrc hlast n hmem
  have h1 := (countsByDate_mem _ r.due_date n).mp hmem
  have h0 : incompleteOn (toggleReview s r.id).1 r.due_date = 0 := by
    simp only [toggleReview, incompleteOn]
    rw [List.length_eq_zero, List.filter_eq_nil_iff]
    intro x hx
    have hx2 := List.mem_filter.mp hx
    rcases List.mem_map.mp hx2.1 with ⟨r2, hr2, rfl⟩
    by_cases hid : r2.id = r.id
    · have hr2r : r2 = r := by
        by_contra hne
        exact List.Pairwise.forall
          (by intro a b hab h2; exact hab h2.symm) hids hr2 hr hne hid
      subst hr2r
      simp [hid, hrc] at hx2
    · simp only [if_neg hid] at hx2 ⊢
      have hc2 : r2.completed = false := by simpa using hx2.2
      intro hdue
      have : r2 = r := hlast r2 hr2 (by simpa using hdue) hc2
      exact hid (by rw [this])
  rw [h0] at h1
  omega
/-- Witness for c7_calendar_stats: day 3 carries count 1, and toggling its
only incomplete review removes day 3 from the mapping. -/
theorem c7_calendar_witness :
    ((3 : Int), 1) ∈ countsByDate store7 ∧
    ((3 : Int), 1) ∉ countsByDate (toggleReview store7 1).1 := by
  have h := c7_calendar_stats store7 (by decide)
  exact ⟨(h.1 3 1).mpr (by decide),
    h.2 ⟨1, 1, 3, false⟩ (by decide) rfl (by decide) 1⟩

-- ### Claim C10 (schedule listing defaults to today)

/-- Claim C10: with no date argument the schedule listing targets today and
equals the explicit call with today's date; under referential integrity
(every review's question exists) and unique question ids, its rows are
exactly the reviews due on the target date, each joined with its question's
title, id and notes. -/
theorem c10_list_defaults_today (s : Store) (today : Int)
    (hfk : ∀ r ∈ s.schedule, ∃ q ∈ s.questions, q.id = r.question_id)
    (hq : s.questions.Pairwise (fun a b => a.id ≠ b.id)) :
    listReviews s today none = listReviews s today (some today) ∧
    (∀ row, row ∈ listReviews s today none ↔
      ∃ r ∈ s.schedule, r.due_date = today ∧ ∃ q ∈ s.questions,
        q.id = r.question_id ∧
        row = ⟨r.id, r.due_date, r.completed, q.title, q.id, q.notes⟩) ∧
    (∀ r ∈ s.schedule, r.due_date = today →
      ∃ q ∈ s.questions, q.id = r.question_id ∧
        (⟨r.id, r.due_date, r.completed, q.title, q.id, q.notes⟩ : TaskRow) ∈
          listReviews s today none) := by
  have hchar : ∀ row, row ∈ listReviews s today none ↔
      ∃ r ∈ s.schedule, r.due_date = today ∧ ∃ q ∈ s.questions,
        q.id = r.question_id ∧
        row = ⟨r.id, r.due_date, r.completed, q.title, q.id, q.notes⟩ := by
    intro row
    constructor
    · intro hrow
      simp only [listReviews, Option.getD] at hrow
      rcases List.mem_filterMap.mp hrow with ⟨r, hrf, hfr⟩
      have hr := List.mem_filter.mp hrf
      rcases Option.map_eq_some'.mp hfr with ⟨q, hfind, hgq⟩
      refine ⟨r, hr.1, by simpa using hr.2, q,
        List.mem_of_find?_eq_some hfind, ?_, hgq.symm⟩
      simpa using List.find?_some hfind
    · rintro ⟨r, hr, hdue, q, hqmem, hqid, hrow⟩
      have hfind : s.questions.find? (fun q2 => q2.id == r.question_id) =
          some q := by
        cases hfind2 : s.questions.find? (fun q2 => q2.id == r.question_id) with
        | none =>
          rw [List.find?_eq_none] at hfind2
          exact absurd (by simp [hqid]) (hfind2 q hqmem)
        | some q2 =>
          have hq2mem := List.mem_of_find?_eq_some hfind2
          have hq2id : q2.id = r.question_id := by
            simpa using List.find?_some hfind2
          have : q2 = q := by
            by_contra hne
            exact List.Pairwise.forall
              (by intro a b hab h2; exact hab h2.symm) hq hq2mem hqmem hne
              (hq2id.trans hqid.symm)
          rw [this]
      apply List.mem_filterMap.mpr
      refine ⟨r, List.mem_filter.mpr ⟨hr, by simp [hdue]⟩, ?_⟩
      rw [hfind]
      simp [hrow]
  refine ⟨rfl, hchar, ?_⟩
  intro r hr hdue
  obtain ⟨q, hqmem, hqid⟩ := hfk r hr
  exact ⟨q, hqmem, hqid, (hchar _).mpr ⟨r, hr, hdue, q, hqmem, hqid, rfl⟩⟩
/-- Witness for c10_list_defaults_today at a concrete store. -/
theorem c10_list_witness :
    listReviews store10 5 none = listReviews store10 5 (some 5) ∧
    (⟨1, 5, false, "Q1", 1, "notes"⟩ : TaskRow) ∈ listReviews store10 5 none := by
  have h := c10_list_defaults_today store10 5 (by decide) (by decide)
  exact ⟨h.1, (h.2.1 _).mpr
    ⟨⟨1, 1, 5, false⟩, by decide, rfl, ⟨1, "Q1", 0, "notes"⟩, by decide, rfl, rfl⟩⟩

-- ### Codec lemmas

/-- hexDigitChar inverts hexDigitVal below 16. -/
theorem hexVal_hexChar : ∀ n : Nat, n < 16 → hexDigitVal (hexDigitChar n) = some n := by
  decide

/-- String.mk is the inverse of String.data. -/
theorem stringMk_data (s : String) : String.mk s.data = s := by
  cases s
  rfl

/-- Parsing an escaped string body recovers the original characters and
stops at the closing quote. -/
theorem parseStrBody_escape (cs rest : List Char) :
    parseStrBody (escapeList cs ++ '"' :: rest) = some (cs, rest) := by
  induction cs with
  | nil =>
    rw [escapeList, List.nil_append, parseStrBody.eq_def]
    simp
  | cons c cs ih =>
    rw [escapeList]
    unfold escapeChar
    by_cases h1 : c = '"'
    · subst h1
      rw [if_pos rfl]
      simp only [List.cons_append, List.singleton_append, List.nil_append]
      rw [parseStrBody.eq_def]
      simp [unescapeChar, ih]
    · rw [if_neg h1]
      by_cases h2 : c = '\\'
      · subst h2
        rw [if_pos rfl]
        simp only [List.cons_append, List.singleton_append, List.nil_append]
        rw [parseStrBody.eq_def]
        simp [unescapeChar, ih]
      · rw [if_neg h2]
        by_cases h3 : c = '\x08'
        · subst h3
          rw [if_pos rfl]
          simp only [List.cons_append, List.singleton_append, List.nil_append]
          rw [parseStrBody.eq_def]
          simp [unescapeChar, ih]
        · rw [if_neg h3]
          by_cases h4 : c = '\t'
          · subst h4
            rw [if_pos rfl]
            simp only [List.cons_append, List.singleton_append, List.nil_append]
            rw [parseStrBody.eq_def]
            simp [unescapeChar, ih]
          · rw [if_neg h4]
            by_cases h5 : c = '\n'
            · subst h5
              rw [if_pos rfl]
              simp only [List.cons_append, List.singleton_append, List.nil_append]
              rw [parseStrBody.eq_def]
              simp [unescapeChar, ih]
            · rw [if_neg h5]
              by_cases h6 : c = '\x0C'
              · subst h6
                rw [if_pos rfl]
                simp only [List.cons_append, List.singleton_append, List.nil_append]
                rw [parseStrBody.eq_def]
                simp [unescapeChar, ih]
              · rw [if_neg h6]
                by_cases h7 : c = '\r'
                · subst h7
                  rw [if_pos rfl]
                  simp only [List.cons_append, List.singleton_append, List.nil_append]
                  rw [parseStrBody.eq_def]
                  simp [unescapeChar, ih]
                · rw [if_neg h7]
                  by_cases h8 : c.toNat < 0x20
                  · rw [if_pos h8]
                    have h16a : c.toNat / 16 < 16 := by omega
                    have h16b : c.toNat % 16 < 16 := by omega
                    have hval : hex4 '0' '0' (hexDigitChar (c.toNat / 16))
                        (hexDigitChar (c.toNat % 16)) = some c.toNat := by
                      rw [hex4, hexVal_hexChar _ h16a, hexVal_hexChar _ h16b]
                      have e1 : hexDigitVal '0' = some 0 := by decide
                      rw [e1]
                      simp
                      omega
                    have hns1 : ¬(0xD800 ≤ c.toNat ∧ c.toNat < 0xDC00) := by omega
                    have hns2 : ¬(0xDC00 ≤ c.toNat ∧ c.toNat < 0xE000) := by omega
                    simp only [List.cons_append, List.singleton_append, List.nil_append]
                    rw [parseStrBody.eq_def]
                    simp [hval, hns1, hns2, ih, Char.ofNat_toNat]
                  · rw [if_neg h8]
                    simp only [List.cons_append, List.singleton_append, List.nil_append]
                    rw [parseStrBody.eq_def]
                    simp [h1, h2, h8, ih]

/-- A non-whitespace head passes through skipWs. -/
theorem skipWs_cons (c : Char) (cs : List Char) (h : isJsonWs c = false) :
    skipWs (c :: cs) = c :: cs := by
  simp [skipWs, h]

/-- A quoted escaped string parses as the original string value. -/
theorem parseValue_quote (fuel : Nat) (s : String) (rest : List Char) :
    parseValue (fuel + 1) ('"' :: (escapeList s.data ++ '"' :: rest)) =
      some (JVal.str s, rest) := by
  simp [parseValue, skipWs, isJsonWs, parseStrBody_escape, stringMk_data]

/-- Parsing the serialized notes object yields the two-field object with
the original string values, consuming the whole input. -/
theorem parseValue_encodeNotes (a b : String) (fuel : Nat) :
    parseValue (fuel + 4) ((encodeNotes a b).data) =
      some (JVal.obj [("bruteForce", JVal.str a), ("optimized", JVal.str b)], []) := by
  show parseValue (fuel + 4) ('\x7b' :: (quoteStr "bruteForce" ++ (':' ::
      (quoteStr a ++ (',' :: (quoteStr "optimized" ++ (':' ::
        (quoteStr b ++ ['\x7d'])))))))) = _
  simp only [quoteStr, List.cons_append, List.append_assoc, List.singleton_append,
    List.nil_append]
  simp [parseValue, parseObjMembers, skipWs, isJsonWs, parseStrBody_escape,
    stringMk_data]

/-- JSON.parse of the serialized notes object. -/
theorem jsonParse_encodeNotes (a b : String) :
    jsonParse (encodeNotes a b) =
      some (JVal.obj [("bruteForce", JVal.str a), ("optimized", JVal.str b)]) := by
  have h3 : 3 ≤ (encodeNotes a b).data.length := by
    simp [encodeNotes, quoteStr]
    omega
  obtain ⟨m, hm⟩ : ∃ m, (encodeNotes a b).data.length + 1 = m + 4 :=
    ⟨(encodeNotes a b).data.length - 3, by omega⟩
  rw [jsonParse, hm, parseValue_encodeNotes]
  simp [skipWs]

/-- Claim C5: for every payload with arbitrary string fields bruteForce and
optimized, decoding the deterministic serialization recovers the payload
exactly (round-trip law decode after encode is the identity). -/
theorem c5_decode_encode_roundtrip (a b : String) :
    parseNotes (encodeNotes a b) = ⟨JVal.str a, JVal.str b⟩ := by
  have hne : encodeNotes a b ≠ "" := by
    intro h
    simpa [encodeNotes] using congrArg String.data h
  have hk : "optimized" ≠ "bruteForce" := by decide
  simp only [parseNotes, if_neg hne, jsonParse_encodeNotes]
  by_cases ha : a = "" <;> by_cases hb : b = "" <;>
    simp [getField, lookupField, jsOrEmptyStr, jsTruthy, ha, hb, hk]

/-- A successful parse of a non-null value lands in the field-extraction
branch of parseNotes. -/
theorem parseNotes_of_parsed (raw : String) (v : JVal) (hne : raw ≠ "")
    (hv : jsonParse raw = some v) (hvn : v ≠ JVal.null) :
    parseNotes raw = ⟨jsOrEmptyStr (getField v "bruteForce"),
                      jsOrEmptyStr (getField v "optimized")⟩ := by
  cases v with
  | null => exact absurd rfl hvn
  | bool b => simp [parseNotes, hne, hv]
  | num m s => simp [parseNotes, hne, hv]
  | str s => simp [parseNotes, hne, hv]
  | arr xs => simp [parseNotes, hne, hv]
  | obj fs => simp [parseNotes, hne, hv]

/-- Claim C6: decode is total (parseNotes is a Lean function); the empty
string yields empty fields; an input parsing as non-null structured data
has its two properties extracted, each defaulting to the empty string when
missing; and any other non-empty input (no JSON parse, or JSON null, whose
property access throws) degrades to the whole raw text as bruteForce with
optimized empty. -/
theorem c6_decode_total_fallback (raw : String) :
    (raw = "" → parseNotes raw = ⟨JVal.str "", JVal.str ""⟩) ∧
    (∀ v, raw ≠ "" → jsonParse raw = some v → v ≠ JVal.null →
      parseNotes raw = ⟨jsOrEmptyStr (getField v "bruteForce"),
                        jsOrEmptyStr (getField v "optimized")⟩ ∧
      (getField v "bruteForce" = none →
        (parseNotes raw).bruteForce = JVal.str "") ∧
      (getField v "optimized" = none →
        (parseNotes raw).optimized = JVal.str "")) ∧
    (raw ≠ "" → (jsonParse raw = none ∨ jsonParse raw = some JVal.null) →
      parseNotes raw = ⟨JVal.str raw, JVal.str ""⟩) := by
  refine ⟨?_, ?_, ?_⟩
  · intro h
    simp [parseNotes, h]
  · intro v hne hv hvn
    have hmain := parseNotes_of_parsed raw v hne hv hvn
    refine ⟨hmain, ?_, ?_⟩
    · intro hmiss
      rw [hmain]
      simp [jsOrEmptyStr, hmiss]
    · intro hmiss
      rw [hmain]
      simp [jsOrEmptyStr, hmiss]
  · intro hne hor
    rcases hor with h | h <;> simp [parseNotes, hne, h]

/-- Witness for c6_decode_total_fallback at concrete inputs: the empty
string, a free-text note, and a parsed non-object value. -/
theorem c6_decode_witness :
    parseNotes "" = ⟨JVal.str "", JVal.str ""⟩ ∧
    parseNotes "plain text" = ⟨JVal.str "plain text", JVal.str ""⟩ ∧
    parseNotes "true" = ⟨JVal.str "", JVal.str ""⟩ := by
  have h1 := (c6_decode_total_fallback "").1 rfl
  have hpt : jsonParse "plain text" = none := by
    simp [jsonParse, parseValue, parseNumber, skipWs, isJsonWs]
  have h2 := (c6_decode_total_fallback "plain text").2.2 (by decide) (Or.inl hpt)
  have htrue : jsonParse "true" = some (JVal.bool true) := by
    simp [jsonParse, parseValue, skipWs, isJsonWs]
  have h3 := ((c6_decode_total_fallback "true").2.1 (JVal.bool true) (by decide)
    htrue (by simp)).1
  exact ⟨h1, h2, h3⟩
